import Mathlib

set_option maxRecDepth 100000

/-!
Verification of `pdfParaExcel` (`src/app.py`) against its natural-language
specification.

The program extracts "daily balance" lines from bank-statement PDF texts with
the regular expression (src/app.py line 36, flag `re.IGNORECASE`)

  (\d{2}/\d{2}/\d{2,4})\s+\d+\s+SALDO DIA\s+[\d\.],\d{2}\s[CD]?\s+([\d\.],\d{2})\s[CD]?

and builds a flat report, one row per extracted record and one sentinel row
per document that produced no record or failed to read.

The regular expression is embedded exactly as it appears in the source,
including the fact that the two amount tokens are written `[\d\.],\d{2}`
(a single digit-or-dot character before the comma, no quantifier).  The
matcher below is a list-of-successes backtracking matcher whose alternative
ordering mirrors the Python `re` engine: greedy quantifiers offer the longest
take first, `?` offers the consumed alternative first, and `finditer` scans
for the leftmost match, resuming after each consumed match.

Character classes are modelled on their ASCII parts (`\d` as ASCII digits,
`\s` as the six ASCII whitespace characters), which covers every input the
specification talks about.
-/

namespace PdfParaExcel

/-- Python regex `\s` (ASCII part): the six whitespace characters. -/
def isPySpace (c : Char) : Bool :=
  c = ' ' || c = '\t' || c = '\n' || c = '\r' || c = '\x0b' || c = '\x0c'

/-- Python regex `\d` (ASCII part): decimal digits. -/
def isPyDigit (c : Char) : Bool :=
  c.isDigit

/-- The character class `[\d\.]` of the source pattern. -/
def isDigitDot (c : Char) : Bool :=
  c.isDigit || c = '.'

/-- The character class `[CD]` under `re.IGNORECASE`. -/
def isCDci (c : Char) : Bool :=
  c = 'C' || c = 'D' || c = 'c' || c = 'd'

/-- Case-insensitive comparison of one pattern character with one input
character, as `re.IGNORECASE` does for literals. -/
def charCI (p c : Char) : Bool :=
  p.toLower = c.toLower

/-- A sub-matcher: given the remaining input, the list of possible
(consumed characters, remaining input) splits, in the priority order in
which a backtracking engine would try them. -/
def SubM : Type :=
  List Char → List (List Char × List Char)

/-- Match a single character satisfying `f`. -/
def pOne (f : Char → Bool) : SubM := fun l =>
  match l with
  | [] => []
  | c :: r => if f c then [([c], r)] else []

/-- Sequential composition; the first matcher's alternatives dominate,
exactly like backtracking. -/
def pSeq (p q : SubM) : SubM := fun l =>
  (p l).flatMap (fun a => (q a.2).map (fun b => (a.1 ++ b.1, b.2)))

/-- Greedy `?`: the consuming alternative is tried first. -/
def pOpt (p : SubM) : SubM := fun l =>
  p l ++ [([], l)]

/-- Greedy one-or-more repetition of a character class (`\s+`, `\d+`):
every nonempty prefix of the maximal run, longest first. -/
def pPlus (f : Char → Bool) : SubM
  | [] => []
  | c :: r => if f c then (pPlus f r).map (fun a => (c :: a.1, a.2)) ++ [([c], r)] else []

/-- Exactly `n` repetitions of a character class. -/
def pRep (f : Char → Bool) : Nat → SubM
  | 0 => fun l => [([], l)]
  | n + 1 => pSeq (pOne f) (pRep f n)

/-- Greedy counted repetition `{lo,hi}`: `hi` characters first, down to `lo`. -/
def pCounted (f : Char → Bool) (lo hi : Nat) : SubM := fun l =>
  (List.range (hi + 1 - lo)).flatMap (fun i => pRep f (hi - i) l)

/-- A case-insensitive literal (used for `SALDO DIA`; its inner space is a
literal space character, not `\s`). -/
def pLit : List Char → SubM
  | [], l => [([], l)]
  | _ :: _, [] => []
  | p :: ps, c :: cs => if charCI p c then (pLit ps cs).map (fun a => (c :: a.1, a.2)) else []

/-- Group 1 of the source pattern: `(\d{2}/\d{2}/\d{2,4})`. -/
def pDate : SubM :=
  pSeq (pRep isPyDigit 2) (pSeq (pOne (fun c => c = '/'))
    (pSeq (pRep isPyDigit 2) (pSeq (pOne (fun c => c = '/')) (pCounted isPyDigit 2 4))))

/-- The uncaptured amount token of the source pattern, exactly as written
there: `[\d\.],\d{2}` (one digit-or-dot character, a comma, two digits). -/
def pAmount : SubM :=
  pSeq (pOne isDigitDot) (pSeq (pOne (fun c => c = ',')) (pRep isPyDigit 2))

/-- The middle of the pattern between the two capture groups:
`\s+\d+\s+SALDO DIA\s+[\d\.],\d{2}\s[CD]?\s+`. -/
def pMid : SubM :=
  pSeq (pPlus isPySpace) (pSeq (pPlus isPyDigit) (pSeq (pPlus isPySpace)
    (pSeq (pLit "SALDO DIA".toList) (pSeq (pPlus isPySpace) (pSeq pAmount
      (pSeq (pOne isPySpace) (pSeq (pOpt (pOne isCDci)) (pPlus isPySpace))))))))

/-- Group 2 of the source pattern: `([\d\.],\d{2})`, the closing balance. -/
def pBal : SubM :=
  pAmount

/-- The tail of the pattern after group 2: `\s[CD]?`. -/
def pTail : SubM :=
  pSeq (pOne isPySpace) (pOpt (pOne isCDci))

/-- All ways the whole pattern can match anchored at the start of `l`, in
backtracking priority order: (group 1, group 2, total consumed length). -/
def matchCandidates (l : List Char) : List (List Char × List Char × Nat) :=
  (pDate l).flatMap (fun a =>
    (pMid a.2).flatMap (fun b =>
      (pBal b.2).flatMap (fun g =>
        (pTail g.2).map (fun t =>
          (a.1, g.1, l.length - t.2.length)))))

/-- The match the engine reports at this anchor: the first alternative in
backtracking order, like Python's `re.match`. -/
def matchAt (l : List Char) : Option (List Char × List Char × Nat) :=
  (matchCandidates l).head?

/-- One match reported by `finditer`: absolute start offset, length of the
whole match, and the two captured groups. -/
structure RegexMatch where
  mstart : Nat
  mlen : Nat
  g1 : List Char
  g2 : List Char
deriving DecidableEq

/-- The scan loop of `finditer`: try to match at each position from the
left; after a match, resume right after its consumed characters (bumping by
one on an empty match, as Python does).  The structural `fuel` argument only
bounds the recursion; every step consumes at least one input character, so a
fuel equal to the input length never runs out. -/
def scanAux : Nat → List Char → Nat → List RegexMatch
  | 0, _, _ => []
  | _ + 1, [], _ => []
  | fuel + 1, c :: rest, abs =>
    match matchAt (c :: rest) with
    | none => scanAux fuel rest (abs + 1)
    | some (g1, g2, len) =>
      if len ≤ 1 then ⟨abs, len, g1, g2⟩ :: scanAux fuel rest (abs + 1)
      else ⟨abs, len, g1, g2⟩ :: scanAux fuel (rest.drop (len - 1)) (abs + len)

/-- `regex_saldo_dia.finditer(texto_completo)` of src/app.py line 41. -/
def regexFindAll (texto : List Char) : List RegexMatch :=
  scanAux texto.length texto 0

/-- Python `str.strip()` (ASCII whitespace part). -/
def pyStrip (s : List Char) : List Char :=
  ((s.dropWhile isPySpace).reverse.dropWhile isPySpace).reverse

/-- Balance cleaning of src/app.py line 49: `saldo_bruto.replace(".", "")`
removes every occurrence of the thousands-separator dot. -/
def saldoLimpo (s : List Char) : List Char :=
  s.filter (fun c => c ≠ '.')

/-- The record list built by the loop of src/app.py lines 43-52: for each
match, the date group verbatim and the stripped, dot-free balance group. -/
def extrairRecords (texto : String) : List (String × String) :=
  (regexFindAll texto.toList).map (fun m => (String.mk m.g1, String.mk (saldoLimpo (pyStrip m.g2))))

/-- Return value of `extrair_dados_pdf`: a record list on success (Python
returns a `list`), or the read-error marker (Python returns the string
`"Erro na leitura"`). -/
inductive ExtractionResult where
  | found : List (String × String) → ExtractionResult
  | readError : ExtractionResult
deriving DecidableEq

/-- An uploaded PDF as the program sees it: its file name, and either the
page texts that `pdfplumber` extracts (one string per page, possibly empty)
or `none` when opening or reading the document raises. -/
structure PdfFile where
  name : String
  pages : Option (List String)
deriving DecidableEq

/-- The page loop of src/app.py lines 19-23: `texto_completo` accumulates
`texto_pagina + "\n"` for each page, but only when `if texto_pagina:` is
truthy, so a page whose extracted text is empty contributes nothing. -/
def concatPages (pages : List String) : String :=
  pages.foldl (fun acc p => if p = "" then acc else acc ++ p ++ "\n") ""

/-- `extrair_dados_pdf` of src/app.py lines 7-60: read failure short-circuits
to the error marker; otherwise scan the concatenated text. -/
def extrair_dados_pdf (f : PdfFile) : ExtractionResult :=
  match f.pages with
  | none => ExtractionResult.readError
  | some ps => ExtractionResult.found (extrairRecords (concatPages ps))

/-- One row of the report: columns `Arquivo`, `Data`, `Saldo do Dia`. -/
structure ReportRow where
  arquivo : String
  data : String
  saldoDia : String
deriving DecidableEq

/-- The per-document branch of the main loop, src/app.py lines 94-118:
an empty record list gives one not-found sentinel row, a non-empty list one
row per record with the file name attached, the error marker one read-error
sentinel row. -/
def buildRows (name : String) (res : ExtractionResult) : List ReportRow :=
  match res with
  | ExtractionResult.found recs =>
    if recs = [] then [⟨name, "N/A", "Saldo não encontrado"⟩]
    else recs.map (fun r => ⟨name, r.1, r.2⟩)
  | ExtractionResult.readError => [⟨name, "N/A", "Erro ao ler PDF"⟩]

/-- The batch loop of src/app.py lines 86-121: `lista_resultados` collects
each file's rows in upload order. -/
def processAll (files : List PdfFile) : List ReportRow :=
  files.flatMap (fun f => buildRows f.name (extrair_dados_pdf f))

/-- Outcome of pressing "Processar Arquivos": the report now held in
`st.session_state.df_resultados`, and whether the empty-batch warning was
shown. -/
structure TriggerOutcome where
  report : List ReportRow
  warned : Bool
deriving DecidableEq

/-- src/app.py lines 78-127: with a non-empty upload list the session report
is replaced by the freshly built one; with an empty list (`if uploaded_files:`
falsy) only `st.warning` runs and the session report is untouched. -/
def processTrigger (files : List PdfFile) (prev : List ReportRow) : TriggerOutcome :=
  if files = [] then ⟨prev, true⟩ else ⟨processAll files, false⟩

/-- The sentinel test of src/app.py lines 136 and 143:
`df["Saldo do Dia"].isin(["Saldo não encontrado", "Erro ao ler PDF"])`. -/
def isSentinelSaldo (s : String) : Bool :=
  s = "Saldo não encontrado" || s = "Erro ao ler PDF"

/-- The success table of src/app.py line 136: rows whose balance is neither
sentinel, in original order. -/
def sucessoRows (rows : List ReportRow) : List ReportRow :=
  rows.filter (fun r => !(isSentinelSaldo r.saldoDia))

/-- The failure table of src/app.py line 143: rows whose balance is one of
the two sentinels, in original order. -/
def falhaRows (rows : List ReportRow) : List ReportRow :=
  rows.filter (fun r => isSentinelSaldo r.saldoDia)

/-- DocumentText as the specification words it (spec.md section 3): the
concatenation of all page texts, each page's text followed by a newline
separator, in page order, including empty page texts.  Stated from the
spec's words for comparison with `concatPages`. -/
def specDocumentText (pages : List String) : String :=
  String.join (pages.map (fun p => p ++ "\n"))

/-! ### Structural lemmas about the matcher -/

theorem pOne_mem {f : Char → Bool} {l x r : List Char} (h : (x, r) ∈ pOne f l) :
    ∃ c, x = [c] ∧ f c = true ∧ l = c :: r := by
  cases l with
  | nil => simp [pOne] at h
  | cons c cs =>
    by_cases hc : f c
    · simp [pOne, hc] at h
      exact ⟨c, h.1, hc, by rw [h.2]⟩
    · simp [pOne, hc] at h

theorem pSeq_mem {p q : SubM} {l x r : List Char} (h : (x, r) ∈ pSeq p q l) :
    ∃ x1 r1 x2, (x1, r1) ∈ p l ∧ (x2, r) ∈ q r1 ∧ x = x1 ++ x2 := by
  simp only [pSeq, List.mem_flatMap, List.mem_map] at h
  obtain ⟨a, ha, b, hb, hab⟩ := h
  simp only [Prod.mk.injEq] at hab
  obtain ⟨hx, hr⟩ := hab
  subst hx
  subst hr
  exact ⟨a.1, a.2, b.1, ha, by simpa using hb, rfl⟩

theorem pRep_two_mem {f : Char → Bool} {l x r : List Char}
    (h : (x, r) ∈ pRep f 2 l) :
    ∃ d1 d2, x = [d1, d2] ∧ f d1 = true ∧ f d2 = true := by
  obtain ⟨x1, r1, x2, h1, h2, hx⟩ := pSeq_mem h
  obtain ⟨x2a, r2, x3, h2a, h3, hx2⟩ := pSeq_mem h2
  obtain ⟨d1, hd1, hf1, _⟩ := pOne_mem h1
  obtain ⟨d2, hd2, hf2, _⟩ := pOne_mem h2a
  have h3e : x3 = [] := by
    simp [pRep] at h3
    exact h3.1
  exact ⟨d1, d2, by simp [hx, hx2, hd1, hd2, h3e], hf1, hf2⟩

/-- Any way the amount token `[\d\.],\d{2}` matches consumes exactly a
digit-or-dot character, a comma and two digits. -/
theorem pAmount_shape {l x r : List Char} (h : (x, r) ∈ pAmount l) :
    ∃ c d1 d2, x = [c, ',', d1, d2] ∧ isDigitDot c = true ∧
      isPyDigit d1 = true ∧ isPyDigit d2 = true := by
  obtain ⟨x1, r1, x2, h1, h2, hx⟩ := pSeq_mem h
  obtain ⟨x2a, r2, x3, h2a, h3, hx2⟩ := pSeq_mem h2
  obtain ⟨c, hc, hfc, _⟩ := pOne_mem h1
  obtain ⟨cm, hcm, hfcm, _⟩ := pOne_mem h2a
  obtain ⟨d1, d2, hd, hf1, hf2⟩ := pRep_two_mem h3
  have hcm' : cm = ',' := by simpa using hfcm
  exact ⟨c, d1, d2, by simp [hx, hx2, hc, hcm, hcm', hd], hfc, hf1, hf2⟩

/-- Every candidate's group 2 arises from a `pBal` match. -/
theorem matchCandidates_g2 {l : List Char} {g1 g2 : List Char} {len : Nat}
    (h : (g1, g2, len) ∈ matchCandidates l) :
    ∃ l2 r2, (g2, r2) ∈ pBal l2 := by
  simp only [matchCandidates, List.mem_flatMap, List.mem_map] at h
  obtain ⟨a, _, b, _, g, hg, t, _, het⟩ := h
  refine ⟨b.2, g.2, ?_⟩
  have : g2 = g.1 := by
    have := congrArg (fun p => p.2.1) het
    simpa using this.symm
  rw [this]
  exact hg

theorem matchAt_g2 {l : List Char} {g1 g2 : List Char} {len : Nat}
    (h : matchAt l = some (g1, g2, len)) :
    ∃ l2 r2, (g2, r2) ∈ pBal l2 := by
  have hmem : (g1, g2, len) ∈ matchCandidates l := by
    unfold matchAt at h
    cases hc : matchCandidates l with
    | nil => rw [hc] at h; simp at h
    | cons a t => rw [hc] at h; simp at h; simp [hc, h]
  exact matchCandidates_g2 hmem

/-- Every match the scan loop reports carries a group 2 produced by `pBal`. -/
theorem scanAux_g2 : ∀ (fuel : Nat) (l : List Char) (abs : Nat) (m : RegexMatch),
    m ∈ scanAux fuel l abs → ∃ l2 r2, (m.g2, r2) ∈ pBal l2 := by
  intro fuel
  induction fuel with
  | zero => intro l abs m h; simp [scanAux] at h
  | succ fuel ih =>
    intro l abs m h
    cases l with
    | nil => simp [scanAux] at h
    | cons c rest =>
      rw [scanAux] at h
      cases hm : matchAt (c :: rest) with
      | none =>
        rw [hm] at h
        exact ih rest (abs + 1) m h
      | some v =>
        obtain ⟨g1, g2, len⟩ := v
        rw [hm] at h
        by_cases hlen : len ≤ 1
        · simp only [hlen, if_true, List.mem_cons] at h
          rcases h with h | h
          · subst h; exact matchAt_g2 hm
          · exact ih rest (abs + 1) m h
        · simp only [hlen, if_false, List.mem_cons] at h
          rcases h with h | h
          · subst h; exact matchAt_g2 hm
          · exact ih (rest.drop (len - 1)) (abs + len) m h

/-- Every match the scan loop reports starts at or after the scan origin. -/
theorem scanAux_start_ge : ∀ (fuel : Nat) (l : List Char) (abs : Nat) (m : RegexMatch),
    m ∈ scanAux fuel l abs → abs ≤ m.mstart := by
  intro fuel
  induction fuel with
  | zero => intro l abs m h; simp [scanAux] at h
  | succ fuel ih =>
    intro l abs m h
    cases l with
    | nil => simp [scanAux] at h
    | cons c rest =>
      rw [scanAux] at h
      cases hm : matchAt (c :: rest) with
      | none =>
        rw [hm] at h
        exact Nat.le_of_succ_le (ih rest (abs + 1) m h)
      | some v =>
        obtain ⟨g1, g2, len⟩ := v
        rw [hm] at h
        by_cases hlen : len ≤ 1
        · simp only [hlen, if_true, List.mem_cons] at h
          rcases h with h | h
          · subst h; exact Nat.le_refl _
          · exact Nat.le_of_succ_le (ih rest (abs + 1) m h)
        · simp only [hlen, if_false, List.mem_cons] at h
          rcases h with h | h
          · subst h; exact Nat.le_refl _
          · exact Nat.le_trans (Nat.le_add_right _ _) (ih (rest.drop (len - 1)) (abs + len) m h)

theorem isPySpace_false_of_pyDigit {c : Char} (h : isPyDigit c = true) :
    isPySpace c = false := by
  cases hs : isPySpace c
  · rfl
  · exfalso
    have hc : c = ' ' ∨ c = '\t' ∨ c = '\n' ∨ c = '\r' ∨ c = '\x0b' ∨ c = '\x0c' := by
      simpa [isPySpace, or_assoc] using hs
    rcases hc with rfl | rfl | rfl | rfl | rfl | rfl <;> exact absurd h (by decide)

theorem isPySpace_false_of_digitDot {c : Char} (h : isDigitDot c = true) :
    isPySpace c = false := by
  simp only [isDigitDot, Bool.or_eq_true, decide_eq_true_eq] at h
  rcases h with h | h
  · exact isPySpace_false_of_pyDigit h
  · subst h; decide

theorem dropWhile_eq_self_of_all_false {p : Char → Bool} {l : List Char}
    (h : ∀ c ∈ l, p c = false) : l.dropWhile p = l := by
  cases l with
  | nil => rfl
  | cons a t => simp [List.dropWhile_cons, h a (by simp)]

theorem pyStrip_eq_self {s : List Char} (h : ∀ c ∈ s, isPySpace c = false) :
    pyStrip s = s := by
  unfold pyStrip
  rw [dropWhile_eq_self_of_all_false h,
    dropWhile_eq_self_of_all_false (by intro c hc; exact h c (by simpa using hc)),
    List.reverse_reverse]

/-- Every group 2 reported by the scan has the shape of the balance token
`[\d\.],\d{2}` and contains no whitespace, so `strip()` leaves it alone. -/
theorem regexFindAll_g2_shape {l : List Char} {m : RegexMatch}
    (h : m ∈ regexFindAll l) :
    ∃ c d1 d2, m.g2 = [c, ',', d1, d2] ∧ isDigitDot c = true ∧
      isPyDigit d1 = true ∧ isPyDigit d2 = true ∧ pyStrip m.g2 = m.g2 := by
  obtain ⟨l2, r2, hbal⟩ := scanAux_g2 _ _ _ m h
  obtain ⟨c, d1, d2, hshape, hc, h1, h2⟩ := pAmount_shape hbal
  refine ⟨c, d1, d2, hshape, hc, h1, h2, ?_⟩
  apply pyStrip_eq_self
  intro x hx
  rw [hshape] at hx
  simp only [List.mem_cons, List.not_mem_nil, or_false] at hx
  rcases hx with rfl | rfl | rfl | rfl
  · exact isPySpace_false_of_digitDot hc
  · decide
  · exact isPySpace_false_of_pyDigit h1
  · exact isPySpace_false_of_pyDigit h2

/-- Every record the extractor emits: the date is group 1 verbatim and the
balance is the dot-free cleaning of a balance-shaped group 2. -/
theorem extrairRecords_mem {t : String} {rec : String × String}
    (h : rec ∈ extrairRecords t) :
    ∃ m ∈ regexFindAll t.toList, rec.1 = String.mk m.g1 ∧
      rec.2.toList = m.g2.filter (fun c => c ≠ '.') ∧
      ∃ c d1 d2, m.g2 = [c, ',', d1, d2] ∧ isDigitDot c = true ∧
        isPyDigit d1 = true ∧ isPyDigit d2 = true := by
  simp only [extrairRecords, List.mem_map] at h
  obtain ⟨m, hm, heq⟩ := h
  obtain ⟨c, d1, d2, hshape, hc, h1, h2, hstrip⟩ := regexFindAll_g2_shape hm
  refine ⟨m, hm, ?_, ?_, c, d1, d2, hshape, hc, h1, h2⟩
  · rw [← heq]
  · rw [← heq]
    show (saldoLimpo (pyStrip m.g2)) = m.g2.filter (fun c => c ≠ '.')
    rw [hstrip]
    rfl

/-- The comma of the balance token survives the dot-removal cleaning. -/
theorem comma_mem_clean (c d1 d2 : Char) :
    ',' ∈ List.filter (fun x => x ≠ '.') [c, ',', d1, d2] := by
  simp

/-- Case analysis of one document's rows. -/
theorem buildRows_cases {name : String} {res : ExtractionResult} {r : ReportRow}
    (h : r ∈ buildRows name res) :
    (∃ recs rec, res = ExtractionResult.found recs ∧ rec ∈ recs ∧
        r = ⟨name, rec.1, rec.2⟩) ∨
    r = ⟨name, "N/A", "Saldo não encontrado"⟩ ∨ r = ⟨name, "N/A", "Erro ao ler PDF"⟩ := by
  cases res with
  | readError =>
    right; right
    simpa [buildRows] using h
  | found recs =>
    by_cases hr : recs = []
    · right; left
      subst hr
      simpa [buildRows] using h
    · left
      simp only [buildRows, hr, if_false, List.mem_map] at h
      obtain ⟨rec, hrec, hre⟩ := h
      exact ⟨recs, rec, rfl, hrec, hre.symm⟩

/-! ### Theorems -/

/-- C1.  The code as it stands in src/app.py does not extract the record
the specification's Scenario 1 promises: on the scenario line the pattern
`[\d\.],\d{2}` (no quantifier on the digit-or-dot class) cannot reach the
balance token `15.043,90`, so the extractor returns the empty record list
instead of `Found([("01/09/2025", "15043,90")])`. -/
theorem C1_scenario1_code_behavior :
    extrair_dados_pdf ⟨"extrato.pdf", some ["01/09/2025 123 SALDO DIA 0,00 C 15.043,90 C"]⟩
      = ExtractionResult.found [] := by
  decide

/-- C2.  Likewise for Scenario 2: in the source the amount tokens are
`[\d\.],\d{2}`, exactly one digit-or-dot character before the comma rather
than one or more, so the transaction amount `1.200,50` is not matched and
the extractor returns the empty record list instead of
`Found([("05/09/25", "9876,00")])`. -/
theorem C2_scenario2_code_behavior :
    extrair_dados_pdf ⟨"extrato.pdf", some ["05/09/25 45 SALDO DIA 1.200,50 D 9.876,00"]⟩
      = ExtractionResult.found [] := by
  decide

/-- C3.  The report builder maps an empty record list to exactly the
not-found sentinel row, a read error to exactly the read-error sentinel row,
a non-empty record list to one row per record carrying the document name,
and the two sentinel strings are distinct. -/
theorem C3_report_builder (name : String) (recs : List (String × String))
    (h : recs ≠ []) :
    buildRows name (ExtractionResult.found []) = [⟨name, "N/A", "Saldo não encontrado"⟩] ∧
    buildRows name ExtractionResult.readError = [⟨name, "N/A", "Erro ao ler PDF"⟩] ∧
    buildRows name (ExtractionResult.found recs) = recs.map (fun r => ⟨name, r.1, r.2⟩) ∧
    ("Saldo não encontrado" : String) ≠ "Erro ao ler PDF" := by
  refine ⟨rfl, rfl, ?_, by decide⟩
  simp [buildRows, h]

theorem C3_report_builder_witness :
    buildRows "a.pdf" (ExtractionResult.found []) = [⟨"a.pdf", "N/A", "Saldo não encontrado"⟩] ∧
    buildRows "a.pdf" ExtractionResult.readError = [⟨"a.pdf", "N/A", "Erro ao ler PDF"⟩] ∧
    buildRows "a.pdf" (ExtractionResult.found [("01/09/2025", "5,90")])
      = [("01/09/2025", "5,90")].map (fun r => ⟨"a.pdf", r.1, r.2⟩) ∧
    ("Saldo não encontrado" : String) ≠ "Erro ao ler PDF" :=
  C3_report_builder "a.pdf" [("01/09/2025", "5,90")] (by decide)

/-- C5.  A read failure on one document never aborts the batch: the failing
document contributes exactly its read-error sentinel row, and every document
after it still contributes its own rows to the report. -/
theorem C5_read_error_continues (pre post : List PdfFile) (f : PdfFile)
    (h : f.pages = none) :
    processAll (pre ++ f :: post)
      = processAll pre ++ ⟨f.name, "N/A", "Erro ao ler PDF"⟩ :: processAll post := by
  simp [processAll, List.flatMap_append, List.flatMap_cons, extrair_dados_pdf, h, buildRows]

theorem C5_read_error_continues_witness :
    processAll ([⟨"a.pdf", some ["01/09/2025 1 SALDO DIA 0,00 C 5,90 C"]⟩]
        ++ (⟨"bad.pdf", none⟩ : PdfFile) :: [⟨"c.pdf", some []⟩])
      = processAll [⟨"a.pdf", some ["01/09/2025 1 SALDO DIA 0,00 C 5,90 C"]⟩]
        ++ ⟨"bad.pdf", "N/A", "Erro ao ler PDF"⟩ :: processAll [⟨"c.pdf", some []⟩] :=
  C5_read_error_continues _ _ ⟨"bad.pdf", none⟩ rfl

/-- C7, counterexample.  The document text is not the concatenation of all
page texts each followed by a newline: a page whose extracted text is empty
is skipped entirely (the `if texto_pagina:` test of src/app.py line 22), so
on the page list `["", "a"]` the code builds `"a\n"` while the spec's
DocumentText is `"\na\n"`. -/
theorem C7_concat_counterexample :
    concatPages ["", "a"] ≠ specDocumentText ["", "a"] := by
  decide

/-- C7, amended.  The DocumentText handed to the matcher is the
concatenation, in page order, of the non-empty page texts only, each
followed by a newline; pages whose extracted text is the empty string are
skipped and contribute no separator. -/
theorem C7_concat_amended (pages : List String) :
    concatPages pages = specDocumentText (pages.filter (fun p => p ≠ "")) := by
  have key : ∀ (ps : List String) (acc : String),
      ps.foldl (fun a p => if p = "" then a else a ++ p ++ "\n") acc
        = acc ++ specDocumentText (ps.filter (fun p => p ≠ "")) := by
    intro ps
    induction ps with
    | nil =>
      intro acc
      apply String.ext
      simp [specDocumentText]
    | cons p ps ih =>
      intro acc
      by_cases hp : p = ""
      · subst hp
        simpa [specDocumentText] using ih acc
      · have := ih (acc ++ p ++ "\n")
        apply String.ext
        simp [specDocumentText, hp, this, String.data_append]
  have h0 := key pages ""
  simpa [concatPages] using h0

/-- C4.  Balance cleaning removes every dot: each emitted balance string
contains zero occurrences of '.', and it is exactly the captured group-2
token filtered of its dots, so all other characters keep their original
relative order. -/
theorem C4_balance_cleaning (t d b : String) (h : (d, b) ∈ extrairRecords t) :
    b.toList.count '.' = 0 ∧
    ∃ m ∈ regexFindAll t.toList, d = String.mk m.g1 ∧
      b.toList = m.g2.filter (fun c => c ≠ '.') := by
  obtain ⟨m, hm, hd, hb, _⟩ := extrairRecords_mem h
  refine ⟨?_, m, hm, hd, hb⟩
  rw [hb, List.count_eq_zero]
  intro hmem
  have := (List.mem_filter.mp hmem).2
  simp at this

theorem C4_balance_cleaning_witness :
    (",45" : String).toList.count '.' = 0 ∧
    ∃ m ∈ regexFindAll ("01/09/2025 7 SALDO DIA 1,00 C .,45 " : String).toList,
      ("01/09/2025" : String) = String.mk m.g1 ∧
      (",45" : String).toList = m.g2.filter (fun c => c ≠ '.') :=
  C4_balance_cleaning "01/09/2025 7 SALDO DIA 1,00 C .,45 " "01/09/2025" ",45" (by decide)

/-- C6.  Order is preserved twice over: the scan reports matches at
strictly increasing, non-overlapping positions (leftmost first), and the
batch report is the in-order concatenation of the per-document row lists,
so rows stay grouped in upload order. -/
theorem C6_order_preservation :
    (∀ fuel l abs, List.Chain' (fun a b => a.mstart + max a.mlen 1 ≤ b.mstart)
      (scanAux fuel l abs)) ∧
    (∀ t, extrairRecords t = (regexFindAll t.toList).map
      (fun m => (String.mk m.g1, String.mk (saldoLimpo (pyStrip m.g2))))) ∧
    (∀ fs gs, processAll (fs ++ gs) = processAll fs ++ processAll gs) ∧
    (∀ f, processAll [f] = buildRows f.name (extrair_dados_pdf f)) := by
  refine ⟨?_, fun t => rfl, ?_, ?_⟩
  · intro fuel
    induction fuel with
    | zero => intro l abs; simp [scanAux]
    | succ fuel ih =>
      intro l abs
      cases l with
      | nil => simp [scanAux]
      | cons c rest =>
        rw [scanAux]
        cases hm : matchAt (c :: rest) with
        | none => exact ih rest (abs + 1)
        | some v =>
          obtain ⟨g1, g2, len⟩ := v
          by_cases hlen : len ≤ 1
          · simp only [hlen, if_true]
            rw [List.chain'_cons']
            refine ⟨?_, ih rest (abs + 1)⟩
            intro y hy
            have hge := scanAux_start_ge fuel rest (abs + 1) y (List.mem_of_mem_head? hy)
            show abs + max len 1 ≤ y.mstart
            omega
          · simp only [hlen, if_false]
            rw [List.chain'_cons']
            refine ⟨?_, ih (rest.drop (len - 1)) (abs + len)⟩
            intro y hy
            have hge := scanAux_start_ge fuel (rest.drop (len - 1)) (abs + len) y
              (List.mem_of_mem_head? hy)
            show abs + max len 1 ≤ y.mstart
            omega
  · intro fs gs
    simp [processAll, List.flatMap_append]
  · intro f
    simp [processAll]

/-- C9.  No balance produced from a real match ever equals a sentinel
string (it always keeps the comma of the balance token, which neither
sentinel contains), so the display partition by sentinel membership is
exact — a row is in the success table iff it came from an extracted record,
a row is in the failure table iff its balance is a sentinel — and both
tables are order-preserving sublists of the report. -/
theorem C9_sentinel_partition (files : List PdfFile) :
    (∀ f ∈ files, ∀ recs, extrair_dados_pdf f = ExtractionResult.found recs →
      ∀ rec ∈ recs,
        rec.2 ≠ "Saldo não encontrado" ∧ rec.2 ≠ "Erro ao ler PDF" ∧
        ∃ c d1 d2, isDigitDot c = true ∧ isPyDigit d1 = true ∧ isPyDigit d2 = true ∧
          rec.2.toList = List.filter (fun x => x ≠ '.') [c, ',', d1, d2]) ∧
    (∀ r ∈ processAll files,
      (r ∈ sucessoRows (processAll files) ↔
        ∃ f ∈ files, ∃ recs, extrair_dados_pdf f = ExtractionResult.found recs ∧
          ∃ rec ∈ recs, r = ⟨f.name, rec.1, rec.2⟩) ∧
      (r ∈ falhaRows (processAll files) ↔ isSentinelSaldo r.saldoDia = true)) ∧
    List.Sublist (sucessoRows (processAll files)) (processAll files) ∧
    List.Sublist (falhaRows (processAll files)) (processAll files) := by
  have hshape : ∀ (f : PdfFile) (recs : List (String × String)),
      extrair_dados_pdf f = ExtractionResult.found recs →
      ∀ rec ∈ recs,
        rec.2 ≠ "Saldo não encontrado" ∧ rec.2 ≠ "Erro ao ler PDF" ∧
        ∃ c d1 d2, isDigitDot c = true ∧ isPyDigit d1 = true ∧ isPyDigit d2 = true ∧
          rec.2.toList = List.filter (fun x => x ≠ '.') [c, ',', d1, d2] := by
    intro f recs hf rec hrec
    have hrecs : ∃ ps, f.pages = some ps ∧ recs = extrairRecords (concatPages ps) := by
      unfold extrair_dados_pdf at hf
      cases hp : f.pages with
      | none => rw [hp] at hf; exact absurd hf (by simp)
      | some ps =>
        rw [hp] at hf
        simp only [ExtractionResult.found.injEq] at hf
        exact ⟨ps, rfl, hf.symm⟩
    obtain ⟨ps, _, hre⟩ := hrecs
    subst hre
    obtain ⟨m, _, _, hb, c, d1, d2, hg2, hc, h1, h2⟩ := extrairRecords_mem hrec
    have hcomma : ',' ∈ rec.2.toList := by
      rw [hb, hg2]
      exact comma_mem_clean c d1 d2
    refine ⟨?_, ?_, c, d1, d2, hc, h1, h2, by rw [hb, hg2]⟩
    · intro hs
      rw [hs] at hcomma
      exact absurd hcomma (by decide)
    · intro hs
      rw [hs] at hcomma
      exact absurd hcomma (by decide)
  refine ⟨fun f _ => hshape f, ?_, List.filter_sublist _, List.filter_sublist _⟩
  intro r hr
  constructor
  · constructor
    · intro hsuc
      have hns : isSentinelSaldo r.saldoDia = false := by
        have := (List.mem_filter.mp hsuc).2
        simpa using this
      simp only [processAll, List.mem_flatMap] at hr
      obtain ⟨f, hf, hrow⟩ := hr
      rcases buildRows_cases hrow with ⟨recs, rec, hres, hrec, hre⟩ | hre | hre
      · exact ⟨f, hf, recs, hres, rec, hrec, hre⟩
      · rw [hre] at hns; simp [isSentinelSaldo] at hns
      · rw [hre] at hns; simp [isSentinelSaldo] at hns
    · intro hfrom
      obtain ⟨f, hf, recs, hres, rec, hrec, hre⟩ := hfrom
      have hrec2 := hshape f recs hres rec hrec
      apply List.mem_filter.mpr
      refine ⟨hr, ?_⟩
      have : r.saldoDia = rec.2 := by rw [hre]
      simp only [isSentinelSaldo, this, Bool.not_eq_true']
      simp only [Bool.or_eq_false_iff, decide_eq_false_iff_not]
      exact ⟨hrec2.1, hrec2.2.1⟩
  · constructor
    · intro hfal
      exact (List.mem_filter.mp hfal).2
    · intro hs
      exact List.mem_filter.mpr ⟨hr, hs⟩

theorem C9_sentinel_partition_witness :
    (⟨"a.pdf", "01/09/2025", "5,90"⟩ : ReportRow) ∈
      sucessoRows (processAll [⟨"a.pdf", some ["01/09/2025 1 SALDO DIA 0,00 C 5,90 C"]⟩]) := by
  have h := (C9_sentinel_partition [⟨"a.pdf", some ["01/09/2025 1 SALDO DIA 0,00 C 5,90 C"]⟩]).2.1
    ⟨"a.pdf", "01/09/2025", "5,90"⟩ (by decide)
  exact h.1.mpr ⟨⟨"a.pdf", some ["01/09/2025 1 SALDO DIA 0,00 C 5,90 C"]⟩, by decide,
    [("01/09/2025", "5,90")], by decide, ("01/09/2025", "5,90"), by decide, by decide⟩

/-- C10.  The pattern requires a whitespace character immediately after
the closing-balance token (the mandatory `\s` before the optional `[CD]?`):
any successful tail match starts with a whitespace character, and on a text
ending right after the balance token the extractor emits nothing, while the
same text with one trailing space yields the record. -/
theorem C10_mandatory_trailing_space :
    (∀ l x r, (x, r) ∈ pTail l → ∃ c t, l = c :: t ∧ isPySpace c = true) ∧
    extrairRecords "01/09/2025 1 SALDO DIA 0,00 C 5,90" = [] ∧
    extrairRecords "01/09/2025 1 SALDO DIA 0,00 C 5,90 " = [("01/09/2025", "5,90")] := by
  refine ⟨?_, by decide, by decide⟩
  intro l x r h
  obtain ⟨x1, r1, x2, h1, _, _⟩ := pSeq_mem h
  obtain ⟨c, _, hfc, hl⟩ := pOne_mem h1
  exact ⟨c, r1, hl, hfc⟩

theorem C10_mandatory_trailing_space_witness :
    ∃ c t, ([' '] : List Char) = c :: t ∧ isPySpace c = true :=
  C10_mandatory_trailing_space.1 [' '] [' '] [] (by decide)

/-- C8.  Triggering processing with zero uploaded files produces no rows,
leaves the previously built report unchanged, and surfaces the warning. -/
theorem C8_empty_batch (prev : List ReportRow) :
    processTrigger [] prev = ⟨prev, true⟩ := by
  simp [processTrigger]

end PdfParaExcel
